import Mathlib

/-!
Shallow embedding of the release-notes generator (`src/release-notes-generator.ts`,
the variant with diff truncation, together with the range-selection part of
`src/cli.ts`).  The git backend (`simple-git`) and the completion backend are
external collaborators; they are modelled explicitly:

* a repository is a linear history `List GitCommit`, newest first (the order in
  which `git log` lists commits);
* `git log { maxCount := n }` returns the first `n` entries of that list;
* `git log { from := f ++ "^", to := t }` (the `f^..t` range used by
  `getCommitsBetween`) returns the commits strictly between `f^` and `t`,
  newest first; it errors when either hash is unknown or when `f` is the root
  commit (so that `f^` does not exist);
* the completion backend is a finite list of stream chunks, each chunk
  optionally carrying a delta content string.

Side effects (spinner/console output aside) are recorded in an explicit trace
of `Effect`s so that claims about which external calls happen, and in which
order, can be stated.
-/

namespace ReleaseNotes

/-- One git commit as surfaced by `simple-git`'s `log` (interface `GitCommit`). -/
structure GitCommit where
  hash : String
  date : String
  message : String
  author_name : String
  author_email : String
deriving DecidableEq

/-- `const MAX_COMMIT_DIFF_CHARS = 3000;` -/
def MAX_COMMIT_DIFF_CHARS : Nat := 3000

/-- The fixed truncation marker appended by `getCommitDetails`:
`"\n...[truncated]\n"`. -/
def truncationMarker : String := "\n...[truncated]\n"

/-- `show.length > MAX_COMMIT_DIFF_CHARS ? show.substring(0, MAX_COMMIT_DIFF_CHARS) + "\n...[truncated]\n" : show` -/
def truncateDiff (showText : String) : String :=
  if showText.length > MAX_COMMIT_DIFF_CHARS then
    showText.take MAX_COMMIT_DIFF_CHARS ++ truncationMarker
  else
    showText

/-- The per-commit detail blob pushed by `getCommitDetails`:
`["--- Code changes (diff) ---", diff, "---"].join("\n")`. -/
def detailBlob (showText : String) : String :=
  String.intercalate "\n" ["--- Code changes (diff) ---", truncateDiff showText, "---"]

/-- The kinds of failure the pipeline can raise (each corresponds to one
`throw new Error(...)` site; messages are elided, only the kind is kept). -/
inductive GenError where
  /-- "Not a git repository" / "Git repository check failed". -/
  | notARepo
  /-- "Failed to get git history between ... and ..." (the underlying range
  query errored, e.g. unknown hash or nonexistent parent). -/
  | gitRangeFailed
  /-- "No commits found in repository history". -/
  | emptyHistory
  /-- "No commits found between ... and ...". -/
  | emptyRange
  /-- "Both fromCommit and toCommit must be provided when using commit range". -/
  | incompleteRange
  /-- "No commits found in the repository" (the re-check after selection). -/
  | noCommits
  /-- "No content returned from Azure OpenAI". -/
  | emptyCompletion
deriving DecidableEq

/-- Observable external calls made during a run, in order. -/
inductive Effect where
  /-- `git.checkIsRepo()`. -/
  | checkRepo
  /-- `git.log({ maxCount })`. -/
  | logLast (maxCount : Nat)
  /-- `git.log({ from: fromC^, to: toC })`. -/
  | logRange (fromC toC : String)
  /-- `git.show([hash, "--stat", "--format=fuller", "--patch"])`. -/
  | showCommit (hash : String)
  /-- `console.warn` after a failed per-commit detail fetch. -/
  | warnDetailFailed (hash : String)
  /-- `client.chat.completions.create({..., messages: [..., prompt], stream: true})`. -/
  | backendCall (prompt : String)
  /-- `process.stdout.write(content)` for one streamed fragment. -/
  | sinkWrite (content : String)
deriving DecidableEq

/-- The state of the external git repository: whether the working directory is
a repository, its linear history (newest first), and the diff text produced by
`git show` for each hash (`Except.error ()` when the query fails). -/
structure GitEnv where
  isRepo : Bool
  history : List GitCommit
  showResult : String → Except Unit String

/-- `git log { maxCount }` on a linear history: the `maxCount` most recent
commits, newest first. -/
def gitLogLast (history : List GitCommit) (maxCount : Nat) : List GitCommit :=
  history.take maxCount

/-- Position of a hash in a newest-first history (0 = most recent). -/
def findHashIdx (history : List GitCommit) (h : String) : Option Nat :=
  history.findIdx? (fun c => c.hash == h)

/-- `git log fromC^..toC` on a linear history: `none` models a git error
(unknown hash, or `fromC` is the root commit so `fromC^` does not exist);
otherwise the commits from `toC` down to `fromC` inclusive, newest first —
empty when `toC` is strictly older than `fromC`. -/
def gitLogRange (history : List GitCommit) (fromC toC : String) :
    Option (List GitCommit) :=
  match findHashIdx history fromC, findHashIdx history toC with
  | some fi, some ti =>
    if fi + 1 = history.length then none
    else if ti ≤ fi then some ((history.drop ti).take (fi - ti + 1))
    else some []
  | _, _ => none

/-- Constructor options (`ReleaseNotesOptions`); the client handle is elided. -/
structure ReleaseNotesOptions where
  maxCommits : Option Nat
  fromCommit : Option String
  toCommit : Option String

/-- The generator's private fields after construction. -/
structure ReleaseNotesGenerator where
  maxCommits : Nat
  fromCommit : Option String
  toCommit : Option String
deriving DecidableEq

/-- JavaScript truthiness of the optional `maxCommits` number: `undefined`
and `0` are falsy. -/
def jsTruthyNat : Option Nat → Bool
  | none => false
  | some n => !(n == 0)

/-- JavaScript truthiness of an optional string: `undefined` and `""` are
falsy. -/
def jsTruthyStr : Option String → Bool
  | none => false
  | some s => !(s == "")

/-- `this.maxCommits = options.maxCommits || 5;` together with the plain
copies of the two endpoints. -/
def ReleaseNotesGenerator.ofOptions (o : ReleaseNotesOptions) :
    ReleaseNotesGenerator :=
  { maxCommits := if jsTruthyNat o.maxCommits then o.maxCommits.getD 5 else 5
    fromCommit := o.fromCommit
    toCommit := o.toCommit }

/-- `checkGitRepo()`: one `checkIsRepo` call; throws when it reports false. -/
def checkGitRepo (env : GitEnv) : List Effect × Except GenError Unit :=
  ([Effect.checkRepo],
    if env.isRepo then Except.ok () else Except.error GenError.notARepo)

/-- `getLastCommits(count)`: one `log({maxCount: count})` call; throws
"No commits found in repository history" when it returns nothing. -/
def getLastCommits (env : GitEnv) (count : Nat) :
    List Effect × Except GenError (List GitCommit) :=
  ([Effect.logLast count],
    let log := gitLogLast env.history count
    if log.length = 0 then Except.error GenError.emptyHistory
    else Except.ok log)

/-- `getCommitsBetween(fromCommit, toCommit)`: one
`log({from: fromCommit^, to: toCommit})` call; a git error is rethrown as
"Failed to get git history between ...", an empty result throws
"No commits found between ...". -/
def getCommitsBetween (env : GitEnv) (fromC toC : String) :
    List Effect × Except GenError (List GitCommit) :=
  ([Effect.logRange fromC toC],
    match gitLogRange env.history fromC toC with
    | none => Except.error GenError.gitRangeFailed
    | some log =>
      if log.length = 0 then Except.error GenError.emptyRange
      else Except.ok log)

/-- The loop body of `getCommitDetails`: walk the commits in order; on a
successful `git show` append the detail blob, on a failure emit a warning and
keep going. -/
def getCommitDetailsGo (env : GitEnv) :
    List GitCommit → List Effect → List String → List Effect × List String
  | [], effs, details => (effs, details)
  | c :: rest, effs, details =>
    match env.showResult c.hash with
    | Except.ok s =>
      getCommitDetailsGo env rest (effs ++ [Effect.showCommit c.hash])
        (details ++ [detailBlob s])
    | Except.error _ =>
      getCommitDetailsGo env rest
        (effs ++ [Effect.showCommit c.hash, Effect.warnDetailFailed c.hash])
        details

/-- `getCommitDetails(commits)`. -/
def getCommitDetails (env : GitEnv) (commits : List GitCommit) :
    List Effect × List String :=
  getCommitDetailsGo env commits [] []

/-- The fixed instruction text of the prompt template, from its start through
`"Git History:\n"` (the part before `${combinedDetails}`). -/
def promptPrefix : String :=
  "\nYou will generate user-facing release notes in plain Markdown for non-technical end users.\n\nInstructions:\n- Read the commit history below and extract only items that matter to an end user of the application.\n- Ignore developer-only changes such as: upgrading models or machine-learning artifacts, README or docs updates, CI/workflow changes, test changes, linting/style changes, pure refactors that do not change behavior, and dependency or build-tool bumps unless they directly change user-visible behavior.\n- Include only: new features or enhancements users will notice, UI/UX changes, performance improvements that affect users, bug fixes that change observable behavior, and explicit breaking changes that require user action.\n- Do not include any duplicates or near-duplicates.\n- For each item, write one short, plain-language sentence (no technical jargon), starting with a verb when appropriate (e.g., \"Users can now...\", \"Fixed an issue where...\").\n- Group items under these headings (omit any empty section):\n  ### ⚠️ Breaking Changes\n  ### ✨ New Features\n  ### 🐛 Bug Fixes\n  ### 📝 Other Changes (only include user-relevant things like support for new file types, integrations, or settings that users can change)\n- If a section has no items, omit that section entirely. Do not create a section with No x changes in this release.\n- If a change is internal or not user-facing, skip it entirely.\n- If nothing user-facing is present, return a short note: \"No user-facing changes in this release.\" under the # Release Notes heading.\n- Return ONLY Markdown content for the release notes. Do not add explanations, metadata, or commentary.\n\nGit History:\n"

/-- The template part between `${combinedDetails}` and the interpolated
current date. -/
def promptMid : String :=
  "\n\n# Release Notes\n\n**Release Date:** "

/-- The whole prompt template; `today` stands for
`new Date().toISOString().split("T")[0]`, the run's current date. -/
def buildPrompt (combinedDetails today : String) : String :=
  promptPrefix ++ combinedDetails ++ promptMid ++ today ++ "\n\n"

/-- JavaScript `String.prototype.trim()`: strip leading and trailing
whitespace. -/
def jsTrim (s : String) : String :=
  String.mk (((s.data.dropWhile Char.isWhitespace).reverse.dropWhile
    Char.isWhitespace).reverse)

/-- `chunk.choices[0]?.delta?.content || ""`. -/
def chunkContent (chunk : Option String) : String := chunk.getD ""

/-- The `for await (const chunk of stream)` loop: nonempty contents are
written to stdout and appended to the accumulator; empty ones are skipped. -/
def collectStreamGo : List (Option String) → List Effect → String →
    List Effect × String
  | [], effs, full => (effs, full)
  | ch :: rest, effs, full =>
    let content := chunkContent ch
    if content = "" then collectStreamGo rest effs full
    else collectStreamGo rest (effs ++ [Effect.sinkWrite content]) (full ++ content)

/-- Consume the whole stream, starting from an empty accumulator. -/
def collectStream (chunks : List (Option String)) : List Effect × String :=
  collectStreamGo chunks [] ""

/-- The "determine which method to use for getting commits" block of
`generateReleaseNotes`: both endpoints truthy → range query; exactly one
truthy → throw before any further call; neither → last-N query. -/
def selectionStep (g : ReleaseNotesGenerator) (env : GitEnv) :
    List Effect × Except GenError (List GitCommit) :=
  if jsTruthyStr g.fromCommit && jsTruthyStr g.toCommit then
    getCommitsBetween env (g.fromCommit.getD "") (g.toCommit.getD "")
  else if jsTruthyStr g.fromCommit || jsTruthyStr g.toCommit then
    ([], Except.error GenError.incompleteRange)
  else
    getLastCommits env g.maxCommits

/-- `generateReleaseNotes()`: repository check, commit selection, per-commit
details, prompt assembly, streamed completion, emptiness check.  `chunks` is
the stream the backend answers with and `today` the run's current date. -/
def generateReleaseNotes (g : ReleaseNotesGenerator) (env : GitEnv)
    (chunks : List (Option String)) (today : String) :
    List Effect × Except GenError String :=
  let check := checkGitRepo env
  match check.2 with
  | Except.error e => (check.1, Except.error e)
  | Except.ok _ =>
    let sel := selectionStep g env
    match sel.2 with
    | Except.error e => (check.1 ++ sel.1, Except.error e)
    | Except.ok commits =>
      if commits.length = 0 then
        (check.1 ++ sel.1, Except.error GenError.noCommits)
      else
        let fetched := getCommitDetails env commits
        let combinedDetails := String.intercalate "\n" fetched.2
        let prompt := buildPrompt combinedDetails today
        let streamed := collectStream chunks
        (check.1 ++ sel.1 ++ fetched.1 ++ [Effect.backendCall prompt] ++ streamed.1,
          if jsTrim streamed.2 = "" then Except.error GenError.emptyCompletion
          else Except.ok (jsTrim streamed.2))

/-- `Array.prototype.findIndex` over the wizard's commit list, comparing the
stored hash values: `-1` when absent. -/
def jsFindIndexHash (commits : List GitCommit) (h : String) : Int :=
  match findHashIdx commits h with
  | some i => (i : Int)
  | none => -1

/-- The wizard's resolved range: the two selected hashes, swapped (with a
warning) when `fromIndex <= toIndex` over the newest-first commit list. -/
structure RangeChoice where
  fromCommit : String
  toCommit : String
  warned : Bool
deriving DecidableEq

/-- `runWizard`'s reorder step: `if (fromIndex <= toIndex) { warn; swap }`. -/
def wizardResolveRange (recentCommits : List GitCommit) (fromSel toSel : String) :
    RangeChoice :=
  let fromIndex := jsFindIndexHash recentCommits fromSel
  let toIndex := jsFindIndexHash recentCommits toSel
  if fromIndex ≤ toIndex then
    { fromCommit := toSel, toCommit := fromSel, warned := true }
  else
    { fromCommit := fromSel, toCommit := toSel, warned := false }

/-- `getRecentCommits`: `git.log({ maxCount: 50 })`. -/
def wizardRecentCommits (env : GitEnv) : List GitCommit :=
  env.history.take 50

/-- Range-mode selection as driven by the wizard: resolve the user's two
choices (swapping when needed) and hand them to `getCommitsBetween`. -/
def wizardRangeSelection (env : GitEnv) (fromSel toSel : String) :
    RangeChoice × (List Effect × Except GenError (List GitCommit)) :=
  let choice := wizardResolveRange (wizardRecentCommits env) fromSel toSel
  (choice, getCommitsBetween env choice.fromCommit choice.toCommit)

/-! Derived, specification-shaped descriptions of the code's behavior, used to
state the claims; each is proved equal to what the embedded code computes. -/

/-- Concatenation of a stream's fragment contents in arrival order. -/
def streamConcat : List (Option String) → String
  | [] => ""
  | ch :: rest => chunkContent ch ++ streamConcat rest

/-- The sink writes a stream produces: one per nonempty fragment, in arrival
order. -/
def sinkWrites (chunks : List (Option String)) : List Effect :=
  ((chunks.map chunkContent).filter (fun s => !(s == ""))).map Effect.sinkWrite

/-- The detail blobs of exactly the commits whose `git show` succeeds, in
selection order. -/
def successBlobs (env : GitEnv) (commits : List GitCommit) : List String :=
  commits.filterMap (fun c =>
    match env.showResult c.hash with
    | Except.ok s => some (detailBlob s)
    | Except.error _ => none)

/-- The effects the detail extractor emits, commit by commit in selection
order: a `show` query for every commit, followed by a warning when it fails. -/
def detailEffects (env : GitEnv) : List GitCommit → List Effect
  | [] => []
  | c :: rest =>
    (match env.showResult c.hash with
     | Except.ok _ => [Effect.showCommit c.hash]
     | Except.error _ => [Effect.showCommit c.hash, Effect.warnDetailFailed c.hash])
      ++ detailEffects env rest

/-- The first prompt payload submitted to the completion backend in a trace,
if any. -/
def promptSent : List Effect → Option String
  | [] => none
  | Effect.backendCall p :: _ => some p
  | _ :: rest => promptSent rest

/-! Concrete fixtures used by witnesses and counterexamples. -/

/-- A commit with the given hash and empty metadata. -/
def mkCommit (h : String) : GitCommit :=
  { hash := h, date := "", message := "", author_name := "", author_email := "" }

def c0 : GitCommit := mkCommit "c0"

def c1 : GitCommit := mkCommit "c1"

def c2 : GitCommit := mkCommit "c2"

/-- Three commits, newest first (`c2` newest, `c0` the root); every `git show`
succeeds with the text `"diff"`. -/
def envThree : GitEnv :=
  { isRepo := true, history := [c2, c1, c0], showResult := fun _ => Except.ok "diff" }

/-- A valid repository with no commits at all. -/
def envEmpty : GitEnv :=
  { isRepo := true, history := [], showResult := fun _ => Except.error () }

/-- A generator in "last" mode with the default field values. -/
def gLast : ReleaseNotesGenerator :=
  { maxCommits := 5, fromCommit := none, toCommit := none }

/-- A diff text one character over the truncation budget. -/
def longDiff : String := String.mk (List.replicate 3001 'a')

/-- A generator carrying only the `fromCommit` endpoint. -/
def gFromOnly : ReleaseNotesGenerator :=
  { maxCommits := 5, fromCommit := some "abc", toCommit := none }

/-- A generator carrying only the `toCommit` endpoint. -/
def gToOnly : ReleaseNotesGenerator :=
  { maxCommits := 5, fromCommit := none, toCommit := some "c2" }

/-- A repository where the detail query fails for `c1` and succeeds for every
other commit. -/
def envMixed : GitEnv :=
  { isRepo := true, history := [c2, c1, c0],
    showResult := fun h => if h == "c1" then Except.error () else Except.ok "diff" }

/-- A valid three-commit repository where every detail query fails. -/
def envAllFail : GitEnv :=
  { isRepo := true, history := [c2, c1, c0], showResult := fun _ => Except.error () }

/-! Helper lemmas shared by several claims. -/

/-- The stream loop appends the nonempty fragments to the sink trace and the
whole concatenation to the accumulator. -/
lemma collectStreamGo_eq (chunks : List (Option String)) (effs : List Effect)
    (full : String) :
    collectStreamGo chunks effs full =
      (effs ++ sinkWrites chunks, full ++ streamConcat chunks) := by
  induction chunks generalizing effs full with
  | nil => simp [collectStreamGo, sinkWrites, streamConcat]
  | cons ch rest ih =>
    have hstep : collectStreamGo (ch :: rest) effs full =
        if chunkContent ch = "" then collectStreamGo rest effs full
        else collectStreamGo rest (effs ++ [Effect.sinkWrite (chunkContent ch)])
          (full ++ chunkContent ch) := rfl
    rw [hstep]
    by_cases h : chunkContent ch = ""
    · rw [if_pos h, ih]
      have hs : sinkWrites (ch :: rest) = sinkWrites rest := by
        simp [sinkWrites, h]
      have hc : streamConcat (ch :: rest) = streamConcat rest := by
        simp [streamConcat, h, String.empty_append]
      rw [hs, hc]
    · rw [if_neg h, ih]
      have hs : sinkWrites (ch :: rest) =
          Effect.sinkWrite (chunkContent ch) :: sinkWrites rest := by
        simp [sinkWrites, h]
      have hc : streamConcat (ch :: rest) = chunkContent ch ++ streamConcat rest := rfl
      rw [hs, hc]
      simp only [Prod.mk.injEq]
      exact ⟨by simp [List.append_assoc], by rw [String.append_assoc]⟩

/-- `collectStream` in closed form. -/
lemma collectStream_eq (chunks : List (Option String)) :
    collectStream chunks = (sinkWrites chunks, streamConcat chunks) := by
  rw [collectStream, collectStreamGo_eq]
  simp [String.empty_append]

/-- The detail loop appends one `show` effect per commit (plus a warning on
failure) and one blob per successful commit, in order. -/
lemma getCommitDetailsGo_eq (env : GitEnv) (commits : List GitCommit)
    (effs : List Effect) (details : List String) :
    getCommitDetailsGo env commits effs details =
      (effs ++ detailEffects env commits, details ++ successBlobs env commits) := by
  induction commits generalizing effs details with
  | nil => simp [getCommitDetailsGo, detailEffects, successBlobs]
  | cons c rest ih =>
    cases h : env.showResult c.hash with
    | ok s =>
      simp [getCommitDetailsGo, h, detailEffects, successBlobs,
        List.filterMap_cons, ih, List.append_assoc]
    | error e =>
      simp [getCommitDetailsGo, h, detailEffects, successBlobs,
        List.filterMap_cons, ih, List.append_assoc]

/-- `getCommitDetails` in closed form. -/
lemma getCommitDetails_eq (env : GitEnv) (commits : List GitCommit) :
    getCommitDetails env commits =
      (detailEffects env commits, successBlobs env commits) := by
  rw [getCommitDetails, getCommitDetailsGo_eq]
  simp

/-! ## C3 — diff truncation -/

/-- C3: for a raw diff text longer than 3000 characters the truncated diff is
exactly its first 3000 characters followed by the fixed marker, and for a text
of at most 3000 characters it is the text unchanged; the per-commit blob wraps
that diff between the fixed header and footer lines. -/
theorem truncation_spec (showText : String) :
    (MAX_COMMIT_DIFF_CHARS < showText.length →
      truncateDiff showText = showText.take MAX_COMMIT_DIFF_CHARS ++ truncationMarker ∧
      (showText.take MAX_COMMIT_DIFF_CHARS).length = MAX_COMMIT_DIFF_CHARS) ∧
    (showText.length ≤ MAX_COMMIT_DIFF_CHARS → truncateDiff showText = showText) ∧
    detailBlob showText =
      "--- Code changes (diff) ---\n" ++ truncateDiff showText ++ "\n---" := by
  have hdata : showText.data.length = showText.length := rfl
  refine ⟨fun h => ⟨by simp [truncateDiff, h], ?_⟩, fun h => ?_, ?_⟩
  · rw [String.take_eq]
    show (showText.data.take MAX_COMMIT_DIFF_CHARS).length = MAX_COMMIT_DIFF_CHARS
    rw [List.length_take]
    omega
  · rw [truncateDiff, if_neg (by omega)]
  · show (((("--- Code changes (diff) ---" ++ "\n") ++ truncateDiff showText)
        ++ "\n") ++ "---") = _
    have h1 : ("--- Code changes (diff) ---" ++ "\n" : String) =
        "--- Code changes (diff) ---\n" := rfl
    have h2 : ("\n" ++ "---" : String) = "\n---" := rfl
    rw [h1, String.append_assoc, h2]

/-- C3 witness: the truncation law evaluated at a 3001-character diff and at
a short diff. -/
theorem truncation_spec_witness :
    truncateDiff longDiff = longDiff.take MAX_COMMIT_DIFF_CHARS ++ truncationMarker ∧
    truncateDiff "abc" = "abc" := by
  refine ⟨((truncation_spec longDiff).1 ?_).1, (truncation_spec "abc").2.1 (by decide)⟩
  show MAX_COMMIT_DIFF_CHARS < (List.replicate 3001 'a').length
  rw [List.length_replicate]
  norm_num [MAX_COMMIT_DIFF_CHARS]

/-! ## C4 — streaming collector -/

/-- C4 (amended): the collector's accumulator ends up equal to the
concatenation of all fragment contents in arrival order, and the live sink
receives exactly the nonempty fragments, in arrival order; in particular for
the fragments "Foo", "Bar", "Baz" the accumulator trims to "FooBarBaz" and the
sink receives those three fragments in that order. -/
theorem collector_accumulates_and_forwards (chunks : List (Option String)) :
    (collectStream chunks).2 = streamConcat chunks ∧
    (collectStream chunks).1 = sinkWrites chunks ∧
    jsTrim (collectStream [some "Foo", some "Bar", some "Baz"]).2 = "FooBarBaz" ∧
    (collectStream [some "Foo", some "Bar", some "Baz"]).1 =
      [Effect.sinkWrite "Foo", Effect.sinkWrite "Bar", Effect.sinkWrite "Baz"] := by
  refine ⟨?_, ?_, by decide, by decide⟩
  · rw [collectStream_eq]
  · rw [collectStream_eq]

/-- C4 counterexample: an empty fragment is not forwarded to the sink, so the
sink trace is not the arrival-order image of all fragments. -/
theorem collector_skips_empty_fragment :
    (collectStream [some "Foo", some "", some "Baz"]).1 =
      [Effect.sinkWrite "Foo", Effect.sinkWrite "Baz"] ∧
    (collectStream [some "Foo", some "", some "Baz"]).1 ≠
      ([some "Foo", some "", some "Baz"].map chunkContent).map Effect.sinkWrite := by
  exact ⟨rfl, by decide⟩

/-- None of the detail extractor's effects is a backend call. -/
lemma detailEffects_no_backend (env : GitEnv) (commits : List GitCommit)
    (q : String) : Effect.backendCall q ∉ detailEffects env commits := by
  induction commits with
  | nil => simp [detailEffects]
  | cons c rest ih =>
    cases h : env.showResult c.hash <;> simp [detailEffects, h, ih]

/-- None of the selection effects is a backend call. -/
lemma selectionStep_no_backend (g : ReleaseNotesGenerator) (env : GitEnv)
    (q : String) : Effect.backendCall q ∉ (selectionStep g env).1 := by
  rw [selectionStep]
  split
  · simp [getCommitsBetween]
  · split
    · simp
    · simp [getLastCommits]

/-- Scanning a trace whose prefix holds no backend call finds the first
backend payload after it. -/
lemma promptSent_append_backend (pre post : List Effect) (p : String)
    (hpre : ∀ q, Effect.backendCall q ∉ pre) :
    promptSent (pre ++ Effect.backendCall p :: post) = some p := by
  induction pre with
  | nil => rfl
  | cons e rest ih =>
    have hrest : ∀ q, Effect.backendCall q ∉ rest :=
      fun q hq => hpre q (List.mem_cons_of_mem _ hq)
    cases e with
    | backendCall r => exact absurd (List.mem_cons_self _ _) (hpre r)
    | checkRepo => exact ih hrest
    | logLast n => exact ih hrest
    | logRange a b => exact ih hrest
    | showCommit h => exact ih hrest
    | warnDetailFailed h => exact ih hrest
    | sinkWrite s => exact ih hrest

/-- A "last"-mode run on a valid, nonempty repository, in closed form. -/
lemma generateReleaseNotes_last (g : ReleaseNotesGenerator) (env : GitEnv)
    (chunks : List (Option String)) (today : String)
    (hrepo : env.isRepo = true) (hf : g.fromCommit = none) (ht : g.toCommit = none)
    (hn : g.maxCommits ≠ 0) (hh : env.history ≠ []) :
    generateReleaseNotes g env chunks today =
      ([Effect.checkRepo] ++ [Effect.logLast g.maxCommits]
          ++ detailEffects env (gitLogLast env.history g.maxCommits)
          ++ [Effect.backendCall (buildPrompt (String.intercalate "\n"
                (successBlobs env (gitLogLast env.history g.maxCommits))) today)]
          ++ sinkWrites chunks,
        if jsTrim (streamConcat chunks) = "" then Except.error GenError.emptyCompletion
        else Except.ok (jsTrim (streamConcat chunks))) := by
  have hlen : ¬ (gitLogLast env.history g.maxCommits).length = 0 := by
    rw [gitLogLast, List.length_take]
    have : 0 < env.history.length := List.length_pos.mpr hh
    omega
  have hsel : selectionStep g env =
      ([Effect.logLast g.maxCommits], Except.ok (gitLogLast env.history g.maxCommits)) := by
    rw [selectionStep, hf, ht]
    simp [jsTruthyStr, getLastCommits, hlen]
  simp only [generateReleaseNotes, checkGitRepo, hrepo, if_true, hsel,
    if_neg hlen, getCommitDetails_eq, collectStream_eq]

/-! ## C2 — incomplete range -/

/-- C2 (amended): on a valid repository, a configuration with exactly one of
the two range endpoints fails with IncompleteRange, and the only external call
made before that failure is the repository-validity check: no commit-log,
show, or backend call happens. -/
theorem incomplete_range_after_repo_check (g : ReleaseNotesGenerator)
    (env : GitEnv) (chunks : List (Option String)) (today : String)
    (hrepo : env.isRepo = true)
    (hxor : jsTruthyStr g.fromCommit ≠ jsTruthyStr g.toCommit) :
    (generateReleaseNotes g env chunks today).2 =
      Except.error GenError.incompleteRange ∧
    (generateReleaseNotes g env chunks today).1 = [Effect.checkRepo] := by
  have hsel : selectionStep g env = ([], Except.error GenError.incompleteRange) := by
    rw [selectionStep]
    cases hft : jsTruthyStr g.fromCommit <;> cases htt : jsTruthyStr g.toCommit <;>
      simp_all
  constructor <;> simp [generateReleaseNotes, checkGitRepo, hrepo, hsel]

/-- C2 witness: the amended law evaluated on a concrete one-endpoint
configuration. -/
theorem incomplete_range_after_repo_check_witness :
    (generateReleaseNotes gFromOnly envThree [] "2024-06-01").2 =
      Except.error GenError.incompleteRange ∧
    (generateReleaseNotes gFromOnly envThree [] "2024-06-01").1 =
      [Effect.checkRepo] :=
  incomplete_range_after_repo_check gFromOnly envThree [] "2024-06-01" rfl (by decide)

/-- C2 counterexample: with only one endpoint supplied the run does fail with
IncompleteRange, but only after performing the `checkIsRepo` repository call,
so the failure does not precede every repository call. -/
theorem incomplete_range_repo_call_made :
    (generateReleaseNotes gToOnly envThree [] "2024-06-01").2 =
      Except.error GenError.incompleteRange ∧
    (generateReleaseNotes gToOnly envThree [] "2024-06-01").1 =
      [Effect.checkRepo] ∧
    Effect.checkRepo ∈ (generateReleaseNotes gToOnly envThree [] "2024-06-01").1 := by
  refine ⟨rfl, rfl, by decide⟩

/-! ## C5 — empty completion -/

/-- C5: after stream completion, a run that reached the backend fails with
EmptyCompletion exactly when the accumulated text is empty after trimming
whitespace, and otherwise returns the trimmed accumulated text. -/
theorem empty_completion_iff (g : ReleaseNotesGenerator) (env : GitEnv)
    (chunks : List (Option String)) (today : String)
    (hrepo : env.isRepo = true) (hf : g.fromCommit = none) (ht : g.toCommit = none)
    (hn : g.maxCommits ≠ 0) (hh : env.history ≠ []) :
    ((generateReleaseNotes g env chunks today).2 =
        Except.error GenError.emptyCompletion ↔
      jsTrim (streamConcat chunks) = "") ∧
    (jsTrim (streamConcat chunks) ≠ "" →
      (generateReleaseNotes g env chunks today).2 =
        Except.ok (jsTrim (streamConcat chunks))) := by
  rw [generateReleaseNotes_last g env chunks today hrepo hf ht hn hh]
  by_cases h : jsTrim (streamConcat chunks) = "" <;> simp [h]

/-- C5 witness: an all-whitespace stream fails with EmptyCompletion; a stream
with text returns it trimmed. -/
theorem empty_completion_iff_witness :
    (generateReleaseNotes gLast envThree [some " ", some "", none] "2024-06-01").2 =
      Except.error GenError.emptyCompletion ∧
    (generateReleaseNotes gLast envThree [some " Release notes"] "2024-06-01").2 =
      Except.ok "Release notes" := by
  constructor
  · exact (empty_completion_iff gLast envThree [some " ", some "", none] "2024-06-01"
      rfl rfl rfl (by decide) (by decide)).1.mpr (by decide)
  · rw [(empty_completion_iff gLast envThree [some " Release notes"] "2024-06-01"
      rfl rfl rfl (by decide) (by decide)).2 (by decide)]
    rfl

/-! ## C6 — empty history and empty range -/

/-- C6: with zero commits in history, "last" mode fails with EmptyHistory; a
range whose resolved span holds no commits fails with EmptyRange; both are
fatal (the run's result is the error). -/
theorem empty_selection_errors (env envR : GitEnv) (fromC toC : String)
    (chunks : List (Option String)) (today : String)
    (h1 : env.isRepo = true) (h2 : env.history = [])
    (h3 : envR.isRepo = true) (h4 : gitLogRange envR.history fromC toC = some [])
    (h5 : fromC ≠ "") (h6 : toC ≠ "") :
    (generateReleaseNotes ⟨5, none, none⟩ env chunks today).2 =
      Except.error GenError.emptyHistory ∧
    (generateReleaseNotes ⟨5, some fromC, some toC⟩ envR chunks today).2 =
      Except.error GenError.emptyRange := by
  constructor
  · have hsel : selectionStep ⟨5, none, none⟩ env =
        ([Effect.logLast 5], Except.error GenError.emptyHistory) := by
      simp [selectionStep, jsTruthyStr, getLastCommits, gitLogLast, h2]
    simp [generateReleaseNotes, checkGitRepo, h1, hsel]
  · have hsel : selectionStep ⟨5, some fromC, some toC⟩ envR =
        ([Effect.logRange fromC toC], Except.error GenError.emptyRange) := by
      simp [selectionStep, jsTruthyStr, h5, h6, getCommitsBetween, h4]
    simp [generateReleaseNotes, checkGitRepo, h3, hsel]

/-- C6 witness: the two errors on concrete repositories — an empty history,
and a range query whose endpoints stand in reverse order so the resolved span
is empty. -/
theorem empty_selection_errors_witness :
    (generateReleaseNotes ⟨5, none, none⟩ envEmpty [] "2024-06-01").2 =
      Except.error GenError.emptyHistory ∧
    (generateReleaseNotes ⟨5, some "c1", some "c0"⟩ envThree [] "2024-06-01").2 =
      Except.error GenError.emptyRange :=
  empty_selection_errors envEmpty envThree "c1" "c0" [] "2024-06-01"
    rfl rfl rfl (by decide) (by decide) (by decide)

/-! ## C9 — default commit count -/

/-- C9: an absent or zero (falsy) maxCommits option yields the default count
of 5; in particular a zero maxCommits builds the very same generator as an
absent one, so every run behaves identically to the default. -/
theorem max_commits_default (fromC toC : Option String) :
    ReleaseNotesGenerator.ofOptions ⟨some 0, fromC, toC⟩ =
      ReleaseNotesGenerator.ofOptions ⟨none, fromC, toC⟩ ∧
    (ReleaseNotesGenerator.ofOptions ⟨none, fromC, toC⟩).maxCommits = 5 ∧
    (ReleaseNotesGenerator.ofOptions ⟨some 0, fromC, toC⟩).maxCommits = 5 ∧
    ∀ (env : GitEnv) (chunks : List (Option String)) (today : String),
      generateReleaseNotes (ReleaseNotesGenerator.ofOptions ⟨some 0, fromC, toC⟩)
          env chunks today =
        generateReleaseNotes (ReleaseNotesGenerator.ofOptions ⟨none, fromC, toC⟩)
          env chunks today :=
  ⟨rfl, rfl, rfl, fun env chunks today => rfl⟩

/-- Every selected commit gets its `show` query, in selection order. -/
lemma show_mem_detailEffects (env : GitEnv) {c : GitCommit}
    {commits : List GitCommit} (hc : c ∈ commits) :
    Effect.showCommit c.hash ∈ detailEffects env commits := by
  induction commits with
  | nil => simp at hc
  | cons a rest ih =>
    rcases List.mem_cons.mp hc with rfl | h
    · cases hs : env.showResult c.hash <;> simp [detailEffects, hs]
    · cases hs : env.showResult a.hash <;> simp [detailEffects, hs, ih h]

/-- Every selected commit whose `show` query fails gets a warning. -/
lemma warn_mem_detailEffects (env : GitEnv) {c : GitCommit}
    {commits : List GitCommit} (hc : c ∈ commits)
    (herr : env.showResult c.hash = Except.error ()) :
    Effect.warnDetailFailed c.hash ∈ detailEffects env commits := by
  induction commits with
  | nil => simp at hc
  | cons a rest ih =>
    rcases List.mem_cons.mp hc with rfl | h
    · simp [detailEffects, herr]
    · cases hs : env.showResult a.hash <;> simp [detailEffects, hs, ih h]

/-! ## C7 — per-commit failures are skipped -/

/-- C7: the detail extractor queries every selected commit in selection order,
keeps exactly the blobs of the commits whose query succeeds (in that order),
emits a warning for each failing commit instead of aborting, and a run whose
backend answers with text still succeeds whatever the per-commit failures, in
particular when at least one blob was produced. -/
theorem detail_failures_skipped (env : GitEnv) (commits : List GitCommit) :
    (getCommitDetails env commits).2 = successBlobs env commits ∧
    (getCommitDetails env commits).1 = detailEffects env commits ∧
    (∀ c ∈ commits, Effect.showCommit c.hash ∈ (getCommitDetails env commits).1) ∧
    (∀ c ∈ commits, env.showResult c.hash = Except.error () →
      Effect.warnDetailFailed c.hash ∈ (getCommitDetails env commits).1) ∧
    (∀ (g : ReleaseNotesGenerator) (chunks : List (Option String)) (today : String),
      env.isRepo = true → g.fromCommit = none → g.toCommit = none →
      g.maxCommits ≠ 0 → env.history ≠ [] →
      successBlobs env (gitLogLast env.history g.maxCommits) ≠ [] →
      jsTrim (streamConcat chunks) ≠ "" →
      (generateReleaseNotes g env chunks today).2 =
        Except.ok (jsTrim (streamConcat chunks))) := by
  refine ⟨by rw [getCommitDetails_eq], by rw [getCommitDetails_eq], ?_, ?_, ?_⟩
  · intro c hc
    rw [getCommitDetails_eq]
    exact show_mem_detailEffects env hc
  · intro c hc herr
    rw [getCommitDetails_eq]
    exact warn_mem_detailEffects env hc herr
  · intro g chunks today hrepo hf ht hn hh _ hne
    rw [generateReleaseNotes_last g env chunks today hrepo hf ht hn hh]
    simp [hne]

/-- C7 witness: on a repository with a failing middle commit, the extractor
returns the two other blobs in order, warns for the failing one, and the run
still returns the backend's document. -/
theorem detail_failures_skipped_witness :
    (getCommitDetails envMixed [c2, c1, c0]).2 =
      [detailBlob "diff", detailBlob "diff"] ∧
    Effect.warnDetailFailed "c1" ∈ (getCommitDetails envMixed [c2, c1, c0]).1 ∧
    (generateReleaseNotes gLast envMixed [some "Notes"] "2024-06-01").2 =
      Except.ok "Notes" := by
  refine ⟨((detail_failures_skipped envMixed [c2, c1, c0]).1).trans rfl, ?_, ?_⟩
  · exact (detail_failures_skipped envMixed [c2, c1, c0]).2.2.2.1 c1 (by decide) rfl
  · rw [(detail_failures_skipped envMixed [c2, c1, c0]).2.2.2.2 gLast [some "Notes"]
      "2024-06-01" rfl rfl rfl (by decide) (by decide) (by decide) (by decide)]
    rfl

/-! ## C10 — no lower bound on produced blobs -/

/-- C10: when every per-commit detail query fails, the extractor returns the
empty list and the pipeline still assembles the prompt around an empty Git
History section and submits it to the completion backend. -/
theorem all_details_failed_still_calls_backend (g : ReleaseNotesGenerator)
    (env : GitEnv) (chunks : List (Option String)) (today : String)
    (hrepo : env.isRepo = true) (hf : g.fromCommit = none) (ht : g.toCommit = none)
    (hn : g.maxCommits ≠ 0) (hh : env.history ≠ [])
    (hfail : ∀ c ∈ env.history, env.showResult c.hash = Except.error ()) :
    (getCommitDetails env (gitLogLast env.history g.maxCommits)).2 = [] ∧
    promptSent (generateReleaseNotes g env chunks today).1 =
      some (buildPrompt "" today) ∧
    Effect.backendCall (buildPrompt "" today) ∈
      (generateReleaseNotes g env chunks today).1 := by
  have hblobs : successBlobs env (gitLogLast env.history g.maxCommits) = [] := by
    rw [successBlobs, List.filterMap_eq_nil_iff]
    intro c hc
    rw [hfail c (List.take_subset _ _ hc)]
  have hnil : String.intercalate "\n" ([] : List String) = "" := rfl
  have htr := generateReleaseNotes_last g env chunks today hrepo hf ht hn hh
  rw [hblobs, hnil] at htr
  refine ⟨by rw [getCommitDetails_eq, hblobs], ?_, ?_⟩
  · have hgroup : (generateReleaseNotes g env chunks today).1 =
        (Effect.checkRepo :: Effect.logLast g.maxCommits ::
            detailEffects env (gitLogLast env.history g.maxCommits)) ++
          (Effect.backendCall (buildPrompt "" today) :: sinkWrites chunks) := by
      rw [htr]
      simp [List.append_assoc]
    rw [hgroup]
    apply promptSent_append_backend
    intro q hq
    rcases List.mem_cons.mp hq with h | h
    · exact absurd h (by simp)
    rcases List.mem_cons.mp h with h | h
    · exact absurd h (by simp)
    exact detailEffects_no_backend env _ q h
  · rw [htr]
    simp

/-- C10 witness: the all-failures law evaluated on a concrete repository. -/
theorem all_details_failed_still_calls_backend_witness :
    (getCommitDetails envAllFail (gitLogLast envAllFail.history gLast.maxCommits)).2 = [] ∧
    promptSent (generateReleaseNotes gLast envAllFail [some "ok"] "2024-06-01").1 =
      some (buildPrompt "" "2024-06-01") := by
  have h := all_details_failed_still_calls_backend gLast envAllFail [some "ok"]
    "2024-06-01" rfl rfl rfl (by decide) (by decide) (fun c hc => rfl)
  exact ⟨h.1, h.2.1⟩

/-! ## C8 — payload determinism -/

/-- C8 (amended): the prompt payload submitted to the backend does not depend
on the backend's streamed answer — it is a function of the configuration, the
repository state, and the run's current date alone (two runs that agree on
those send the identical payload). -/
theorem prompt_payload_stream_independent (g : ReleaseNotesGenerator)
    (env : GitEnv) (chunks chunksB : List (Option String)) (today : String) :
    promptSent (generateReleaseNotes g env chunks today).1 =
      promptSent (generateReleaseNotes g env chunksB today).1 := by
  by_cases hrepo : env.isRepo = true
  · cases hsel : (selectionStep g env).2 with
    | error e =>
      simp [generateReleaseNotes, checkGitRepo, hrepo, hsel]
    | ok commits =>
      by_cases hz : commits.length = 0
      · simp [generateReleaseNotes, checkGitRepo, hrepo, hsel, hz]
      · have key : ∀ cs : List (Option String),
            promptSent (generateReleaseNotes g env cs today).1 =
              some (buildPrompt
                (String.intercalate "\n" (successBlobs env commits)) today) := by
          intro cs
          simp only [generateReleaseNotes, checkGitRepo, hrepo, if_true, hsel,
            if_neg hz, getCommitDetails_eq, collectStream_eq]
          have hgroup : [Effect.checkRepo] ++ (selectionStep g env).1 ++
                detailEffects env commits ++
                [Effect.backendCall (buildPrompt
                  (String.intercalate "\n" (successBlobs env commits)) today)] ++
                sinkWrites cs =
              (Effect.checkRepo :: ((selectionStep g env).1 ++
                  detailEffects env commits)) ++
                (Effect.backendCall (buildPrompt
                  (String.intercalate "\n" (successBlobs env commits)) today) ::
                  sinkWrites cs) := by
            simp [List.append_assoc]
          rw [hgroup]
          apply promptSent_append_backend
          intro q hq
          rcases List.mem_cons.mp hq with h | h
          · exact absurd h (by simp)
          rcases List.mem_append.mp h with h | h
          · exact selectionStep_no_backend g env q h
          · exact detailEffects_no_backend env commits q h
        rw [key chunks, key chunksB]
  · have hfalse : env.isRepo = false := by
      revert hrepo
      cases env.isRepo <;> simp
    simp [generateReleaseNotes, checkGitRepo, hfalse]

/-- A successful "last"-mode run's backend payload, in closed form. -/
lemma promptSent_last_run (g : ReleaseNotesGenerator) (env : GitEnv)
    (chunks : List (Option String)) (today : String)
    (hrepo : env.isRepo = true) (hf : g.fromCommit = none) (ht : g.toCommit = none)
    (hn : g.maxCommits ≠ 0) (hh : env.history ≠ []) :
    promptSent (generateReleaseNotes g env chunks today).1 =
      some (buildPrompt (String.intercalate "\n"
        (successBlobs env (gitLogLast env.history g.maxCommits))) today) := by
  have htr := generateReleaseNotes_last g env chunks today hrepo hf ht hn hh
  have hgroup : (generateReleaseNotes g env chunks today).1 =
      (Effect.checkRepo :: Effect.logLast g.maxCommits ::
          detailEffects env (gitLogLast env.history g.maxCommits)) ++
        (Effect.backendCall (buildPrompt (String.intercalate "\n"
            (successBlobs env (gitLogLast env.history g.maxCommits))) today) ::
          sinkWrites chunks) := by
    rw [htr]
    simp [List.append_assoc]
  rw [hgroup]
  apply promptSent_append_backend
  intro q hq
  rcases List.mem_cons.mp hq with h | h
  · exact absurd h (by simp)
  rcases List.mem_cons.mp h with h | h
  · exact absurd h (by simp)
  exact detailEffects_no_backend env _ q h

/-- C8 counterexample: two runs with the same configuration and repository
state but different run dates submit different prompt payloads — the payload
embeds the current date, so it is not a function of the selection and the
repository state alone. -/
theorem prompt_payload_differs_across_dates :
    promptSent (generateReleaseNotes gLast envThree [] "2024-01-01").1 ≠
      promptSent (generateReleaseNotes gLast envThree [] "2024-01-02").1 := by
  rw [promptSent_last_run gLast envThree [] "2024-01-01" rfl rfl rfl
      (by decide) (by decide),
    promptSent_last_run gLast envThree [] "2024-01-02" rfl rfl rfl
      (by decide) (by decide)]
  intro h
  have h2 := Option.some.inj h
  have h3 := congrArg String.data h2
  simp only [buildPrompt, String.data_append] at h3
  have h4 := List.append_cancel_left (List.append_cancel_right h3)
  exact absurd h4 (by decide)

/-! ## C1 — range selection order -/

/-- In a history whose hashes are pairwise distinct, looking up the hash of
the element at index `i` finds exactly index `i`. -/
lemma findIdx?_hash_get (l : List GitCommit)
    (hnd : (l.map GitCommit.hash).Nodup) (i : Nat) (hi : i < l.length) :
    l.findIdx? (fun c => c.hash == (l.get ⟨i, hi⟩).hash) = some i := by
  induction l generalizing i with
  | nil => simp at hi
  | cons a tl ih =>
    rw [List.map_cons, List.nodup_cons] at hnd
    rcases i with _ | j
    · simp [List.findIdx?_cons]
    · have hj : j < tl.length := Nat.lt_of_succ_lt_succ hi
      have hget : (a :: tl).get ⟨j + 1, hi⟩ = tl.get ⟨j, hj⟩ := rfl
      rw [hget]
      have hne : (a.hash == (tl.get ⟨j, hj⟩).hash) = false := by
        refine beq_eq_false_iff_ne.mpr fun hEq => hnd.1 ?_
        exact hEq ▸ List.mem_map_of_mem GitCommit.hash (tl.get_mem j hj)
      have ihj := ih hnd.2 j hj
      have hneP : a.hash ≠ tl[j].hash := by simpa using hne
      simp only [List.get_eq_getElem] at ihj
      simp [List.findIdx?_cons, hneP, ihj]

/-- Hash lookup over the wizard's bounded listing agrees with the full
history for indices within the bound. -/
lemma findIdx?_hash_take (l : List GitCommit)
    (hnd : (l.map GitCommit.hash).Nodup) (n i : Nat) (hi : i < l.length)
    (hin : i < n) :
    (l.take n).findIdx? (fun c => c.hash == (l.get ⟨i, hi⟩).hash) = some i := by
  have hlen : i < (l.take n).length := by
    rw [List.length_take]; omega
  have hget : (l.take n).get ⟨i, hlen⟩ = l.get ⟨i, hi⟩ := by
    simp [List.get_eq_getElem, List.getElem_take]
  have hndT : ((l.take n).map GitCommit.hash).Nodup := by
    rw [List.map_take]
    exact hnd.sublist (List.take_sublist _ _)
  rw [← hget]
  exact findIdx?_hash_get (l.take n) hndT i hlen

/-- The head of the inclusive segment between two history positions is the
element at the smaller position (the more recent commit). -/
lemma segment_head {α : Type} (l : List α) (m M : Nat) (hm : m ≤ M)
    (hM : M < l.length) :
    ((l.drop m).take (M - m + 1)).head? = l[m]? := by
  rw [List.head?_eq_getElem?, List.getElem?_take,
    if_pos (by omega : 0 < M - m + 1), List.getElem?_drop]
  simp

/-- The last element of the segment is the one at the larger position (the
older commit). -/
lemma segment_getLast {α : Type} (l : List α) (m M : Nat) (hm : m ≤ M)
    (hM : M < l.length) :
    ((l.drop m).take (M - m + 1)).getLast? = l[M]? := by
  have hlen : ((l.drop m).take (M - m + 1)).length = M - m + 1 := by
    rw [List.length_take, List.length_drop]; omega
  rw [List.getLast?_eq_getElem?, hlen, Nat.add_sub_cancel, List.getElem?_take,
    if_pos (by omega), List.getElem?_drop]
  congr 1
  omega

/-- Every element between the two positions lies in the segment. -/
lemma segment_mem {α : Type} (l : List α) (m M j : Nat) (hm : m ≤ j)
    (hMj : j ≤ M) (hj : j < l.length) :
    l.get ⟨j, hj⟩ ∈ (l.drop m).take (M - m + 1) := by
  have hsome : ((l.drop m).take (M - m + 1))[j - m]? = some (l.get ⟨j, hj⟩) := by
    rw [List.getElem?_take, if_pos (by omega), List.getElem?_drop,
      (by omega : m + (j - m) = j), List.getElem?_eq_getElem hj]
    rfl
  obtain ⟨h, hEq⟩ := List.getElem?_eq_some.mp hsome
  exact hEq ▸ List.getElem_mem h

/-- C1 (amended): for any two wizard-selected commits — hashes at positions
`fi` and `ti` of a duplicate-free history, within the 50 most recent commits
the wizard lists — whose older endpoint is not the root commit, range-mode
selection succeeds with the inclusive span between the two endpoints
regardless of the order they were supplied in; the wizard swaps the endpoints
(with a warning) exactly when the caller placed `from` at or after `to` in
recency order; but the span is ordered newest-first: its first element is the
NEWER endpoint and its last element the older one. -/
theorem range_selection_spec (env : GitEnv)
    (hnd : (env.history.map GitCommit.hash).Nodup)
    (fi ti : Nat) (hfi : fi < env.history.length) (hti : ti < env.history.length)
    (hfi50 : fi < 50) (hti50 : ti < 50)
    (hroot : max fi ti + 1 < env.history.length) :
    ∃ span : List GitCommit,
      (wizardRangeSelection env (env.history.get ⟨fi, hfi⟩).hash
          (env.history.get ⟨ti, hti⟩).hash).2.2 = Except.ok span ∧
      ((wizardRangeSelection env (env.history.get ⟨fi, hfi⟩).hash
          (env.history.get ⟨ti, hti⟩).hash).1.warned = true ↔ fi ≤ ti) ∧
      span = (env.history.drop (min fi ti)).take (max fi ti - min fi ti + 1) ∧
      span.head? = env.history[min fi ti]? ∧
      span.getLast? = env.history[max fi ti]? ∧
      env.history.get ⟨fi, hfi⟩ ∈ span ∧
      env.history.get ⟨ti, hti⟩ ∈ span := by
  have hfT := findIdx?_hash_take env.history hnd 50 fi hfi hfi50
  have htT := findIdx?_hash_take env.history hnd 50 ti hti hti50
  have hfL := findIdx?_hash_get env.history hnd fi hfi
  have htL := findIdx?_hash_get env.history hnd ti hti
  by_cases hle : fi ≤ ti
  · have hmin : min fi ti = fi := min_eq_left hle
    have hmax : max fi ti = ti := max_eq_right hle
    have hcast : (fi : Int) ≤ (ti : Int) := by exact_mod_cast hle
    have hchoice : wizardResolveRange (wizardRecentCommits env)
        (env.history.get ⟨fi, hfi⟩).hash (env.history.get ⟨ti, hti⟩).hash =
        ⟨(env.history.get ⟨ti, hti⟩).hash, (env.history.get ⟨fi, hfi⟩).hash,
          true⟩ := by
      rw [wizardResolveRange,
        show wizardRecentCommits env = env.history.take 50 from rfl]
      simp only [jsFindIndexHash, findHashIdx, hfT, htT]
      rw [if_pos hcast]
    have hrange : gitLogRange env.history (env.history.get ⟨ti, hti⟩).hash
        (env.history.get ⟨fi, hfi⟩).hash =
        some ((env.history.drop fi).take (ti - fi + 1)) := by
      simp only [gitLogRange, findHashIdx, hfL, htL]
      rw [if_neg (by omega), if_pos hle]
    have hbetween : getCommitsBetween env (env.history.get ⟨ti, hti⟩).hash
        (env.history.get ⟨fi, hfi⟩).hash =
        ([Effect.logRange (env.history.get ⟨ti, hti⟩).hash
            (env.history.get ⟨fi, hfi⟩).hash],
          Except.ok ((env.history.drop fi).take (ti - fi + 1))) := by
      simp only [getCommitsBetween, hrange]
      rw [if_neg (by rw [List.length_take, List.length_drop]; omega)]
    refine ⟨(env.history.drop (min fi ti)).take (max fi ti - min fi ti + 1),
      ?_, ?_, rfl, ?_, ?_, ?_, ?_⟩
    · rw [hmin, hmax]
      simp only [wizardRangeSelection, hchoice, hbetween]
    · simp only [wizardRangeSelection, hchoice]
      simp [hle]
    · rw [hmin, hmax]
      exact segment_head env.history fi ti hle hti
    · rw [hmin, hmax]
      exact segment_getLast env.history fi ti hle hti
    · rw [hmin, hmax]
      exact segment_mem env.history fi ti fi le_rfl hle hfi
    · rw [hmin, hmax]
      exact segment_mem env.history fi ti ti hle le_rfl hti
  · have hge : ti ≤ fi := le_of_not_le hle
    have hmin : min fi ti = ti := min_eq_right hge
    have hmax : max fi ti = fi := max_eq_left hge
    have hcast : ¬ ((fi : Int) ≤ (ti : Int)) := by exact_mod_cast hle
    have hchoice : wizardResolveRange (wizardRecentCommits env)
        (env.history.get ⟨fi, hfi⟩).hash (env.history.get ⟨ti, hti⟩).hash =
        ⟨(env.history.get ⟨fi, hfi⟩).hash, (env.history.get ⟨ti, hti⟩).hash,
          false⟩ := by
      rw [wizardResolveRange,
        show wizardRecentCommits env = env.history.take 50 from rfl]
      simp only [jsFindIndexHash, findHashIdx, hfT, htT]
      rw [if_neg hcast]
    have hrange : gitLogRange env.history (env.history.get ⟨fi, hfi⟩).hash
        (env.history.get ⟨ti, hti⟩).hash =
        some ((env.history.drop ti).take (fi - ti + 1)) := by
      simp only [gitLogRange, findHashIdx, hfL, htL]
      rw [if_neg (by omega), if_pos hge]
    have hbetween : getCommitsBetween env (env.history.get ⟨fi, hfi⟩).hash
        (env.history.get ⟨ti, hti⟩).hash =
        ([Effect.logRange (env.history.get ⟨fi, hfi⟩).hash
            (env.history.get ⟨ti, hti⟩).hash],
          Except.ok ((env.history.drop ti).take (fi - ti + 1))) := by
      simp only [getCommitsBetween, hrange]
      rw [if_neg (by rw [List.length_take, List.length_drop]; omega)]
    refine ⟨(env.history.drop (min fi ti)).take (max fi ti - min fi ti + 1),
      ?_, ?_, rfl, ?_, ?_, ?_, ?_⟩
    · rw [hmin, hmax]
      simp only [wizardRangeSelection, hchoice, hbetween]
    · simp only [wizardRangeSelection, hchoice]
      simp [hle]
    · rw [hmin, hmax]
      exact segment_head env.history ti fi hge hfi
    · rw [hmin, hmax]
      exact segment_getLast env.history ti fi hge hfi
    · rw [hmin, hmax]
      exact segment_mem env.history ti fi fi hge le_rfl hfi
    · rw [hmin, hmax]
      exact segment_mem env.history ti fi ti le_rfl hge hti

/-- C1 witness: the amended law evaluated on a concrete three-commit history,
the caller supplying the older endpoint first as the wizard instructs (no
swap): the span is both endpoints inclusive, newest-first. -/
theorem range_selection_spec_witness :
    ∃ span : List GitCommit,
      (wizardRangeSelection envThree "c1" "c2").2.2 = Except.ok span ∧
      ((wizardRangeSelection envThree "c1" "c2").1.warned = true ↔
        (1 : Nat) ≤ 0) ∧
      span = (envThree.history.drop (min 1 0)).take (max 1 0 - min 1 0 + 1) ∧
      span.head? = envThree.history[min 1 0]? ∧
      span.getLast? = envThree.history[max 1 0]? ∧
      envThree.history.get ⟨1, by decide⟩ ∈ span ∧
      envThree.history.get ⟨0, by decide⟩ ∈ span :=
  range_selection_spec envThree (by decide) 1 0 (by decide) (by decide)
    (by decide) (by decide) (by decide)

/-- C1 counterexample: with the older endpoint `c1` supplied as `from` and the
newer `c2` as `to` (the order the wizard instructs), the resolved span is
`[c2, c1]` — its first element is the newer endpoint `c2`, not the older of
the two, so the span is not ordered oldest-first. -/
theorem range_selection_not_oldest_first :
    (wizardRangeSelection envThree "c1" "c2").2.2 = Except.ok [c2, c1] ∧
    [c2, c1].head? = some c2 ∧
    c2 ≠ c1 :=
  ⟨rfl, rfl, by decide⟩

end ReleaseNotes
